import Mathlib

/-!
Shallow embedding of the ESP32 Modbus sensor simulator (src/src/main.cpp).

Floats are modelled as exact rationals (ℚ); machine integers as ℕ/ℤ, with an
explicit reduction mod 2^16 where the code casts to `uint16_t`.  The display
(`tft`), the protocol transport (`mb`), the encoder hardware and the buttons
are external collaborators: the handlers below take the encoder reading as an
argument, register writes become updates of an explicit table `ℕ → ℕ`, and
each handler additionally returns the list of screen-draw requests it issues.
-/

namespace ModbusSim

/-- `struct Param` (main.cpp lines 70-79). -/
structure Param where
  name : String
  unit : String
  minVal : ℚ
  maxVal : ℚ
  step : ℚ
  reg : ℕ
  value : ℚ
  deriving DecidableEq, Repr

/-- Placeholder entry used as the default of list lookups. -/
def dfltParam : Param := ⟨"", "", 0, 0, 1, 0, 0⟩

/-- The 7 fixed parameters `params[]` (main.cpp lines 81-88), with the float
literals read as exact rationals. -/
def params : List Param :=
  [⟨"pH", "pH", 0, 14, 1/100, 1, 7⟩,
   ⟨"TDS", "ppm", 0, 1008, 1, 2, 500⟩,
   ⟨"TSS", "NTU", 0, 1000, 1, 3, 100⟩,
   ⟨"COD", "mg/L", 0, 1300, 1, 4, 200⟩,
   ⟨"BOD", "mg/L", 0, 350, 1, 5, 50⟩,
   ⟨"DO", "mg/L", 0, 20, 1/100, 6, 8⟩,
   ⟨"NH3-N", "mg/L", 0, 1000, 1/100, 7, 5⟩]

/-- `PARAM_COUNT` (main.cpp line 89). -/
def PARAM_COUNT : ℕ := params.length

/-- `struct SerialCfg` (main.cpp lines 92-98). -/
structure SerialCfg where
  baud : ℕ
  dataBits : ℕ
  parity : Char
  stopBits : ℕ
  deriving DecidableEq, Repr

/-- `BAUDS[]` (main.cpp line 101). -/
def BAUDS : List ℕ := [1200, 2400, 4800, 9600, 19200, 38400, 57600, 115200]

/-- `BAUD_COUNT` (main.cpp line 102). -/
def BAUD_COUNT : ℕ := BAUDS.length

/-- `enum class SerialField` (main.cpp lines 105-111). -/
inductive SerialField where
  | BAUD
  | PARITY
  | DATABITS
  | STOPBITS
  deriving DecidableEq, Repr

/-- The integer value of a `SerialField`, as the code's `(int)serialField`. -/
def SerialField.toIdx : SerialField → ℤ
  | .BAUD => 0
  | .PARITY => 1
  | .DATABITS => 2
  | .STOPBITS => 3

/-- The code's cast `(SerialField)fi` back from an int in `[0, 3]`. -/
def SerialField.ofIdx (i : ℤ) : SerialField :=
  if i = 0 then .BAUD else if i = 1 then .PARITY else if i = 2 then .DATABITS
  else .STOPBITS

/-- `enum class Screen` (main.cpp lines 46-53). -/
inductive Screen where
  | HOME
  | PARAM_LIST
  | PARAM_EDIT
  | SERIAL_MENU
  | SERIAL_EDIT
  deriving DecidableEq, Repr

/-- The screen-draw calls a handler can issue (drawHome .. drawSerialEdit). -/
inductive RenderReq where
  | home
  | paramList
  | paramEdit
  | serialMenu
  | serialEdit
  deriving DecidableEq, Repr

/-- `clamp` (main.cpp line 116): `v < lo ? lo : (v > hi ? hi : v)`. -/
def clamp {α : Type} [LinearOrder α] (v lo hi : α) : α :=
  if v < lo then lo else if hi < v then hi else v

/-- `toReg` (main.cpp lines 165-172): `scaled = value / step`, a guard
flooring a negative result to 0, then `(uint16_t)lroundf(scaled)`.  For a
nonnegative argument `lroundf` rounds half away from zero, i.e. `⌊x + 1/2⌋`,
and the cast to `uint16_t` reduces the long modulo 2^16. -/
def toReg (p : Param) : ℕ :=
  let scaled : ℚ := p.value / p.step
  let guarded : ℚ := if scaled < 0 then 0 else scaled
  (⌊guarded + 1/2⌋).toNat % 65536

/-- `fromReg` (main.cpp lines 173-176): `(float)regval * p.step`. -/
def fromReg (p : Param) (regval : ℕ) : ℚ :=
  (regval : ℚ) * p.step

/-- A register write `mb.Hreg(a, v)` on the table `h`. -/
def setReg (h : ℕ → ℕ) (a v : ℕ) : ℕ → ℕ :=
  fun x => if x = a then v else h x

/-- The full mutable state of the sketch: navigation globals (main.cpp lines
55-58, 112), the parameter array, the holding-register table owned by the
Modbus collaborator, and the serial configuration. -/
structure AppState where
  screen : Screen
  listIndex : ℤ
  editIndex : ℤ
  encPrev : ℤ
  serialField : SerialField
  params : List Param
  hregs : ℕ → ℕ
  scfg : SerialCfg

/-- `params[i]` for an int cursor `i`. -/
def paramAt (s : AppState) (i : ℤ) : Param :=
  s.params.getD i.toNat dfltParam

/-- `onSelect` (main.cpp lines 301-337).  `encNow` stands for `enc.read()`.
In the `SERIAL_EDIT` case the code also calls `rs485Reinit()`, a transport
side effect outside the modelled state. -/
def onSelect (encNow : ℤ) (s : AppState) : AppState × List RenderReq :=
  match s.screen with
  | .HOME =>
      ({ s with screen := .PARAM_LIST, listIndex := 0, encPrev := encNow },
       [.paramList])
  | .PARAM_LIST =>
      ({ s with editIndex := s.listIndex, screen := .PARAM_EDIT, encPrev := encNow },
       [.paramEdit])
  | .PARAM_EDIT =>
      ({ s with hregs := setReg s.hregs (paramAt s s.editIndex).reg
                  (toReg (paramAt s s.editIndex)),
                screen := .PARAM_LIST },
       [.paramList])
  | .SERIAL_MENU =>
      ({ s with screen := .SERIAL_EDIT, encPrev := encNow }, [.serialEdit])
  | .SERIAL_EDIT =>
      ({ s with screen := .SERIAL_MENU }, [.serialMenu])

/-- `onBack` (main.cpp lines 339-364). -/
def onBack (s : AppState) : AppState × List RenderReq :=
  match s.screen with
  | .HOME => (s, [.home])
  | .PARAM_LIST => ({ s with screen := .HOME }, [.home])
  | .PARAM_EDIT => ({ s with screen := .PARAM_LIST }, [.paramList])
  | .SERIAL_MENU => ({ s with screen := .HOME }, [.home])
  | .SERIAL_EDIT => ({ s with screen := .SERIAL_MENU }, [.serialMenu])

/-- `onSelectLong` (main.cpp lines 367-376): only acts from `HOME`. -/
def onSelectLong (encNow : ℤ) (s : AppState) : AppState × List RenderReq :=
  if s.screen = Screen.HOME then
    ({ s with screen := .SERIAL_MENU, serialField := .BAUD, encPrev := encNow },
     [.serialMenu])
  else (s, [])

/-- One parameter's inbound sync (main.cpp lines 423-437): decode the raw
register value and accept it, clamped into `[minVal, maxVal]`, only when it
differs from the current value by strictly more than `step * 0.5`. -/
def inboundParam (p : Param) (rv : ℕ) : ℚ :=
  let newVal := fromReg p rv
  if |newVal - p.value| > p.step * (1/2) then clamp newVal p.minVal p.maxVal
  else p.value

/-- The inbound pass over the whole parameter array. -/
def inboundPass (s : AppState) : AppState :=
  { s with params :=
      s.params.map fun p => { p with value := inboundParam p (s.hregs p.reg) } }

/-- The `PARAM_EDIT` rotation (main.cpp lines 464-475): one step of `step`
in the sense of `diff`, clamped, accepted when it moves the value by at
least `step * 0.5`. -/
def rotaryEditValue (p : Param) (diff : ℤ) : ℚ :=
  let delta := if 0 < diff then p.step else -p.step
  let nv := clamp (p.value + delta) p.minVal p.maxVal
  if |nv - p.value| ≥ p.step * (1/2) then nv else p.value

/-- The index of `b` in `BAUDS` found by the linear scan at main.cpp lines
494-500; the scan leaves `idx = 0` when the baud is not in the table. -/
def baudIndex (b : ℕ) : ℕ :=
  ((BAUDS.findIdx? fun x => x = b).getD 0)

/-- `order[3] = {N, E, O}` (main.cpp line 507). -/
def parityOrder : List Char := ['N', 'E', 'O']

/-- The index of `c` in `parityOrder` found by the while loop at main.cpp
lines 508-510; for a parity in the set this is its first index (the loop
runs past the array only on a value outside the set). -/
def parityIndex (c : Char) : ℕ :=
  ((parityOrder.findIdx? fun x => x = c).getD 3)

/-- The `SERIAL_EDIT` rotation (main.cpp lines 489-524), one branch per
selected field. -/
def serialEditRotate (f : SerialField) (diff : ℤ) (c : SerialCfg) : SerialCfg :=
  match f with
  | .BAUD =>
      let idx : ℤ := baudIndex c.baud
      let idx2 := clamp (idx + (if 0 < diff then 1 else -1)) 0 ((BAUD_COUNT : ℤ) - 1)
      { c with baud := BAUDS.getD idx2.toNat 0 }
  | .PARITY =>
      let ci : ℤ := parityIndex c.parity
      let ci2 := (ci + (if 0 < diff then 1 else -1) + 3) % 3
      { c with parity := parityOrder.getD ci2.toNat ' ' }
  | .DATABITS => { c with dataBits := if 0 < diff then 8 else 7 }
  | .STOPBITS => { c with stopBits := if 0 < diff then 2 else 1 }

/-- The rotary-encoder block of `loop()` (main.cpp lines 440-526). -/
def encoderStep (encNow : ℤ) (s : AppState) : AppState :=
  if encNow = s.encPrev then s
  else
    let diff := encNow - s.encPrev
    let s := { s with encPrev := encNow }
    match s.screen with
    | .HOME => s
    | .PARAM_LIST =>
        let ni := clamp (s.listIndex + (if 0 < diff then 1 else -1)) 0
          ((PARAM_COUNT : ℤ) - 1)
        { s with listIndex := ni }
    | .PARAM_EDIT =>
        let p := paramAt s s.editIndex
        { s with params :=
            s.params.set s.editIndex.toNat { p with value := rotaryEditValue p diff } }
    | .SERIAL_MENU =>
        let fi := clamp (s.serialField.toIdx + (if 0 < diff then 1 else -1)) 0 3
        { s with serialField := SerialField.ofIdx fi }
    | .SERIAL_EDIT =>
        { s with scfg := serialEditRotate s.serialField diff s.scfg }

/-- The outbound sync loop (main.cpp lines 533-539): write `toReg p` to
`p.reg` exactly when it differs from the raw value the table holds; `wr`
accumulates the addresses actually written. -/
def outboundPass (ps : List Param) (h : ℕ → ℕ) (wr : List ℕ) : (ℕ → ℕ) × List ℕ :=
  match ps with
  | [] => (h, wr)
  | p :: rest =>
      if h p.reg = toReg p then outboundPass rest h wr
      else outboundPass rest (setReg h p.reg (toReg p)) (wr ++ [p.reg])

/-- A button event delivered by `btnSelect.loop()` / `btnBack.loop()`. -/
inductive ButtonEvent where
  | select
  | back
  | selectLong
  deriving DecidableEq, Repr

/-- One iteration of `loop()` (main.cpp lines 413-541): the button handlers
fire first (inside `btnSelect.loop()` / `btnBack.loop()`), then the inbound
sync pass, then the rotary-encoder block, and last — only when the 300 ms
throttle has elapsed (`throttleDue`) — the outbound sync pass. -/
def loopTick (s0 : AppState) (ev : Option ButtonEvent) (encNow : ℤ)
    (throttleDue : Bool) : AppState :=
  let s1 := match ev with
    | none => s0
    | some .select => (onSelect encNow s0).1
    | some .back => (onBack s0).1
    | some .selectLong => (onSelectLong encNow s0).1
  let s2 := inboundPass s1
  let s3 := encoderStep encNow s2
  if throttleDue then { s3 with hregs := (outboundPass s3.params s3.hregs []).1 }
  else s3

/-- Sample register table holding 0 everywhere, used by concrete instances. -/
def zeroRegs : ℕ → ℕ := fun _ => 0

/-- `params[0]` — the pH parameter. -/
def phParam : Param := params.getD 0 dfltParam

/-- `params[1]` — the TDS parameter. -/
def tdsParam : Param := params.getD 1 dfltParam

/-- The NH3-N parameter (`params[6]`) with its value raised to its own
`maxVal = 1000`; its step is 0.01, so `value / step = 100000 > 65535`. -/
def nh3nAtMax : Param := { (params.getD 6 dfltParam) with value := 1000 }

/-- The TDS parameter with current value 499.5: the decoded candidate from
raw register value 500 then differs from it by exactly `step / 2`. -/
def tdsOffGrid : Param := { (params.getD 1 dfltParam) with value := 999/2 }

/-- The startup configuration `scfg = {9600, 8, 'N', 1}` (main.cpp line 100). -/
def cfgW : SerialCfg := ⟨9600, 8, 'N', 1⟩

/-- A concrete state: fresh navigation state, the initial parameters, and a
register table holding 600 everywhere (as if a remote master wrote 600). -/
def stateW : AppState :=
  { screen := .HOME, listIndex := 0, editIndex := 0, encPrev := 0,
    serialField := .BAUD, params := params, hregs := fun _ => 600,
    scfg := ⟨9600, 8, 'N', 1⟩ }

/-- A concrete state sitting in the parameter list. -/
def stateB : AppState :=
  { screen := .PARAM_LIST, listIndex := 2, editIndex := 0, encPrev := 5,
    serialField := .BAUD, params := params, hregs := zeroRegs,
    scfg := ⟨9600, 8, 'N', 1⟩ }

/-! ## Helper lemmas -/

lemma inboundParam_eq (p : Param) (rv : ℕ) :
    inboundParam p rv =
      if |fromReg p rv - p.value| > p.step * (1/2)
      then clamp (fromReg p rv) p.minVal p.maxVal else p.value := rfl

lemma rotaryEditValue_eq (p : Param) (diff : ℤ) :
    rotaryEditValue p diff =
      if |clamp (p.value + (if 0 < diff then p.step else -p.step)) p.minVal p.maxVal
            - p.value| ≥ p.step * (1/2)
      then clamp (p.value + (if 0 < diff then p.step else -p.step)) p.minVal p.maxVal
      else p.value := rfl

lemma clamp_mem {v lo hi : ℚ} (h : lo ≤ hi) :
    lo ≤ clamp v lo hi ∧ clamp v lo hi ≤ hi := by
  unfold clamp; split_ifs <;> constructor <;> linarith

lemma clamp_eq_hi {v lo hi : ℚ} (hlo : lo ≤ hi) (h : hi < v) : clamp v lo hi = hi := by
  unfold clamp; split_ifs <;> linarith

lemma clamp_eq_lo {v lo hi : ℚ} (h : v < lo) : clamp v lo hi = lo := by
  unfold clamp; rw [if_pos h]

lemma clamp_id {v lo hi : ℚ} (h1 : lo ≤ v) (h2 : v ≤ hi) : clamp v lo hi = v := by
  unfold clamp; rw [if_neg (not_lt.mpr h1), if_neg (not_lt.mpr h2)]

lemma clamp_cases (v lo hi : ℚ) :
    clamp v lo hi = v ∨ clamp v lo hi = lo ∨ clamp v lo hi = hi := by
  unfold clamp; split_ifs <;> tauto

/-- Two distinct multiples of a positive quantum `s` are at least `s` apart. -/
lemma grid_gap {s a b : ℚ} (hs : 0 < s) {ka kb : ℤ} (ha : a = ka * s)
    (hb : b = kb * s) (h : a < b) : a + s ≤ b := by
  subst ha hb
  have hk : ka < kb := by
    by_contra hk
    push_neg at hk
    have := mul_le_mul_of_nonneg_right (Int.cast_le.mpr hk : (kb : ℚ) ≤ ka) hs.le
    linarith
  have hk1 : ((ka + 1 : ℤ) : ℚ) ≤ ((kb : ℤ) : ℚ) := by exact_mod_cast hk
  calc (ka : ℚ) * s + s = ((ka + 1 : ℤ) : ℚ) * s := by push_cast; ring
    _ ≤ (kb : ℚ) * s := mul_le_mul_of_nonneg_right hk1 hs.le

lemma getD_mem {α : Type} (l : List α) (i : ℕ) (d : α) (h : i < l.length) :
    l.getD i d ∈ l := by
  rw [List.getD_eq_getElem?_getD, List.getElem?_eq_getElem h]
  exact List.getElem_mem h

lemma inboundPass_getD (s : AppState) (i : ℕ) (hi : i < s.params.length) :
    (inboundPass s).params.getD i dfltParam =
      (let p := s.params.getD i dfltParam
       { p with value := inboundParam p (s.hregs p.reg) }) := by
  simp only [inboundPass]
  rw [List.getD_eq_getElem?_getD, List.getElem?_map, List.getElem?_eq_getElem hi]
  rw [List.getD_eq_getElem?_getD, List.getElem?_eq_getElem hi]
  rfl

lemma inboundPass_map_reg (s : AppState) :
    (inboundPass s).params.map Param.reg = s.params.map Param.reg := by
  show (s.params.map _).map Param.reg = _
  rw [List.map_map]
  rfl

/-- When the encoder did not move, the rotary block of `loop()` does nothing. -/
lemma encoderStep_noturn (s : AppState) :
    encoderStep s.encPrev (inboundPass s) = inboundPass s := by
  unfold encoderStep
  exact if_pos rfl

/-- Encoding a value that is exactly `rv * step` with `rv` a valid 16-bit raw
value recovers `rv`. -/
lemma toReg_mul (p : Param) (rv : ℕ) (hstep : 0 < p.step) (h16 : rv < 65536)
    (hv : p.value = (rv : ℚ) * p.step) : toReg p = rv := by
  have hsc : p.value / p.step = ((rv : ℤ) : ℚ) := by
    rw [hv, mul_div_cancel_right₀ _ (ne_of_gt hstep)]
    push_cast; ring
  simp only [toReg, hsc]
  rw [if_neg (not_lt.mpr (by positivity))]
  rw [Int.floor_int_add]
  norm_num [Nat.mod_eq_of_lt h16]

/-- Addresses not owned by any parameter of `ps` are untouched by the
outbound pass, and are never recorded as written. -/
lemma outboundPass_frame (ps : List Param) (h : ℕ → ℕ) (wr : List ℕ) (a : ℕ)
    (ha : a ∉ ps.map Param.reg) :
    (outboundPass ps h wr).1 a = h a ∧
    (a ∈ (outboundPass ps h wr).2 ↔ a ∈ wr) := by
  induction ps generalizing h wr with
  | nil => exact ⟨rfl, Iff.rfl⟩
  | cons q rest ih =>
    rw [List.map_cons, List.mem_cons, not_or] at ha
    simp only [outboundPass]
    split_ifs with hq
    · exact ih h wr ha.2
    · have hrec := ih (setReg h q.reg (toReg q)) (wr ++ [q.reg]) ha.2
      refine ⟨?_, ?_⟩
      · rw [hrec.1]; simp [setReg, ha.1]
      · rw [hrec.2]; simp [List.mem_append, ha.1]

/-- After the outbound pass every parameter's register holds its encoding,
and a parameter's address was written exactly when the table disagreed with
the encoding when the pass reached it. -/
lemma outboundPass_spec (ps : List Param) (h : ℕ → ℕ) (wr : List ℕ)
    (hnd : (ps.map Param.reg).Nodup) (p : Param) (hp : p ∈ ps) :
    (outboundPass ps h wr).1 p.reg = toReg p ∧
    (p.reg ∈ (outboundPass ps h wr).2 ↔ p.reg ∈ wr ∨ h p.reg ≠ toReg p) := by
  induction ps generalizing h wr with
  | nil => cases hp
  | cons q rest ih =>
    rw [List.map_cons, List.nodup_cons] at hnd
    rcases List.mem_cons.mp hp with rfl | hp'
    · simp only [outboundPass]
      split_ifs with hq
      · have hfr := outboundPass_frame rest h wr p.reg hnd.1
        exact ⟨hfr.1.trans hq, by rw [hfr.2]; simp [hq]⟩
      · have hfr := outboundPass_frame rest (setReg h p.reg (toReg p))
          (wr ++ [p.reg]) p.reg hnd.1
        refine ⟨?_, ?_⟩
        · rw [hfr.1]; simp [setReg]
        · rw [hfr.2]; simp [hq]
    · have hpq : p.reg ≠ q.reg := by
        intro hcontra
        exact hnd.1 (hcontra ▸ List.mem_map_of_mem Param.reg hp')
      simp only [outboundPass]
      split_ifs with hq
      · exact ih h wr hnd.2 hp'
      · have hrec := ih (setReg h q.reg (toReg q)) (wr ++ [q.reg]) hnd.2 hp'
        refine ⟨hrec.1, ?_⟩
        rw [hrec.2]
        simp [setReg, List.mem_append, hpq]

lemma baudIndex_lt (b : ℕ) (hb : b ∈ BAUDS) : baudIndex b < 8 := by
  fin_cases hb <;> decide

/-! ## Claims -/

/-- Claim C1: the spec's round-trip property — for every parameter and for
value in \x7bminVal, midpoint, maxVal\x7d, `fromReg (toReg p)` differs from the
value by less than `step` — FAILS on the code at the concrete input NH3-N
with value = maxVal = 1000: `toReg` rounds `1000 / 0.01 = 100000` and the
`uint16_t` cast wraps it to `100000 mod 65536 = 34464`, so the decoded value
is `344.64`, off by `655.36 ≥ 0.01`.  This theorem evaluates the code at
that failing input. -/
theorem roundTrip_fails_at_nh3n_max :
    toReg nh3nAtMax = 34464 ∧
    fromReg nh3nAtMax (toReg nh3nAtMax) = 8616/25 ∧
    ¬ |fromReg nh3nAtMax (toReg nh3nAtMax) - nh3nAtMax.value| < nh3nAtMax.step := by
  have h : toReg nh3nAtMax = 34464 := by
    norm_num [toReg, nh3nAtMax, params, dfltParam]; decide
  refine ⟨h, ?_, ?_⟩
  · rw [h]; norm_num [fromReg, nh3nAtMax, params, dfltParam]
  · rw [h]
    norm_num [fromReg, nh3nAtMax, params, dfltParam, abs_sub_lt_iff]
    rw [abs_of_nonneg (by norm_num)]
    norm_num

/-- Claim C2, counterexample: at the NH3-N parameter with value 1000 the
rounded result `⌊100000 + 1/2⌋ = 100000` exceeds 65535, yet `toReg` does not
return 65535 — the claim's upper clamp does not exist in the code. -/
theorem toReg_overflow_not_clamped :
    (65535 : ℤ) < ⌊nh3nAtMax.value / nh3nAtMax.step + 1/2⌋ ∧
    0 ≤ nh3nAtMax.value / nh3nAtMax.step ∧
    toReg nh3nAtMax ≠ 65535 := by
  have h : toReg nh3nAtMax = 34464 := by
    norm_num [toReg, nh3nAtMax, params, dfltParam]; decide
  exact ⟨by norm_num [nh3nAtMax, params, dfltParam],
    by norm_num [nh3nAtMax, params, dfltParam],
    by rw [h]; decide⟩

/-- Claim C2, amended: for every parameter, `toReg` is total, always returns
a 16-bit value, maps a negative quotient to 0, and otherwise returns the
rounded quotient reduced modulo 65536 — wrapping, not clamping, results
above 65535. -/
theorem toReg_total_guarded_mod (p : Param) :
    toReg p < 65536 ∧
    (p.value / p.step < 0 → toReg p = 0) ∧
    (0 ≤ p.value / p.step →
      toReg p = (⌊p.value / p.step + 1/2⌋).toNat % 65536) := by
  refine ⟨Nat.mod_lt _ (by norm_num), ?_, ?_⟩
  · intro h
    simp only [toReg, if_pos h]
    norm_num
  · intro h
    simp only [toReg, if_neg (not_lt.mpr h)]

/-- Claim C3, counterexample: with the TDS parameter at current value 499.5
and register raw value 500, the decoded candidate 500 differs from the value
by exactly `step / 2 = 0.5`; the claim demands the value be overwritten with
the clamped candidate (`≥` threshold), but the inbound pass — whose guard is
the strict `>` — leaves the value unchanged. -/
theorem inbound_half_step_boundary_rejected :
    |fromReg tdsOffGrid 500 - tdsOffGrid.value| = tdsOffGrid.step / 2 ∧
    clamp (fromReg tdsOffGrid 500) tdsOffGrid.minVal tdsOffGrid.maxVal ≠ tdsOffGrid.value ∧
    inboundParam tdsOffGrid 500 = tdsOffGrid.value := by
  refine ⟨?_, ?_, ?_⟩
  · norm_num [fromReg, tdsOffGrid, params, dfltParam]
  · norm_num [fromReg, clamp, tdsOffGrid, params, dfltParam]
  · norm_num [inboundParam, fromReg, tdsOffGrid, params, dfltParam]
    rw [abs_of_nonneg (by norm_num)]
    norm_num

/-- Claim C3, amended: in the inbound sync pass, each parameter's value is
overwritten with the clamped candidate exactly when the candidate differs
from the current value by STRICTLY more than `step / 2`; at a difference of
`step / 2` or less the pass leaves the value unchanged. -/
theorem inbound_accept_strict_rule (s : AppState) (i : ℕ) (hi : i < s.params.length) :
    ((inboundPass s).params.getD i dfltParam).value =
      (let p := s.params.getD i dfltParam
       let cand := fromReg p (s.hregs p.reg)
       if |cand - p.value| > p.step * (1/2) then clamp cand p.minVal p.maxVal
       else p.value) := by
  rw [inboundPass_getD s i hi]
  rfl

theorem inbound_accept_strict_rule_witness :
    1 < stateW.params.length ∧
    ((inboundPass stateW).params.getD 1 dfltParam).value =
      (let p := stateW.params.getD 1 dfltParam
       let cand := fromReg p (stateW.hregs p.reg)
       if |cand - p.value| > p.step * (1/2) then clamp cand p.minVal p.maxVal
       else p.value) :=
  ⟨by decide, inbound_accept_strict_rule stateW 1 (by decide)⟩

/-- Claim C4: on a state satisfying the documented invariants (positive step,
value inside `[minVal, maxVal]`, and value and bounds whole multiples of the
step — true initially and preserved, as the last two conjuncts show), both
mutation paths keep `minVal ≤ value ≤ maxVal`, and an input beyond a bound —
a decoded register candidate or a rotary step past the edge — pins the value
exactly at the nearest bound. -/
theorem value_bounds_invariant_and_pinning (p : Param) (rv : ℕ) (diff : ℤ)
    (hstep : 0 < p.step)
    (hlo : p.minVal ≤ p.value) (hhi : p.value ≤ p.maxVal)
    (hgv : ∃ k : ℤ, p.value = (k : ℚ) * p.step)
    (hgmin : ∃ k : ℤ, p.minVal = (k : ℚ) * p.step)
    (hgmax : ∃ k : ℤ, p.maxVal = (k : ℚ) * p.step) :
    (p.minVal ≤ inboundParam p rv ∧ inboundParam p rv ≤ p.maxVal) ∧
    (p.minVal ≤ rotaryEditValue p diff ∧ rotaryEditValue p diff ≤ p.maxVal) ∧
    (p.maxVal < fromReg p rv → inboundParam p rv = p.maxVal) ∧
    (fromReg p rv < p.minVal → inboundParam p rv = p.minVal) ∧
    (p.maxVal < p.value + (if 0 < diff then p.step else -p.step) →
      rotaryEditValue p diff = p.maxVal) ∧
    (p.value + (if 0 < diff then p.step else -p.step) < p.minVal →
      rotaryEditValue p diff = p.minVal) ∧
    (∃ k : ℤ, inboundParam p rv = (k : ℚ) * p.step) ∧
    (∃ k : ℤ, rotaryEditValue p diff = (k : ℚ) * p.step) := by
  have hlohi : p.minVal ≤ p.maxVal := hlo.trans hhi
  obtain ⟨kv, hkv⟩ := hgv
  obtain ⟨km, hkm⟩ := hgmin
  obtain ⟨kM, hkM⟩ := hgmax
  have hcand : ∀ r : ℕ, fromReg p r = ((r : ℤ) : ℚ) * p.step := by
    intro r; simp [fromReg]
  refine ⟨?_, ?_, ?_, ?_, ?_, ?_, ?_, ?_⟩
  · rw [inboundParam_eq]
    split_ifs with h
    · exact clamp_mem hlohi
    · exact ⟨hlo, hhi⟩
  · rw [rotaryEditValue_eq]
    split_ifs with h1 h2 h3
    · exact clamp_mem hlohi
    · exact ⟨hlo, hhi⟩
    · exact clamp_mem hlohi
    · exact ⟨hlo, hhi⟩
  · intro h
    have hvlt : p.value < fromReg p rv := hhi.trans_lt h
    have hgap : p.value + p.step ≤ fromReg p rv := grid_gap hstep hkv (hcand rv) hvlt
    have hacc : |fromReg p rv - p.value| > p.step * (1/2) := by
      rw [abs_of_nonneg (by linarith)]
      linarith
    rw [inboundParam_eq, if_pos hacc]
    exact clamp_eq_hi hlohi h
  · intro h
    have hvgt : fromReg p rv < p.value := h.trans_le hlo
    have hgap : fromReg p rv + p.step ≤ p.value := grid_gap hstep (hcand rv) hkv hvgt
    have hacc : |fromReg p rv - p.value| > p.step * (1/2) := by
      rw [abs_of_nonpos (by linarith)]
      linarith
    rw [inboundParam_eq, if_pos hacc]
    exact clamp_eq_lo h
  · intro h
    by_cases hd : 0 < diff
    · rw [if_pos hd] at h
      have hnv : clamp (p.value + p.step) p.minVal p.maxVal = p.maxVal :=
        clamp_eq_hi hlohi h
      rw [rotaryEditValue_eq, if_pos hd, hnv]
      rcases eq_or_lt_of_le hhi with heq | hlt
      · split_ifs <;> simp [heq]
      · have hgap : p.value + p.step ≤ p.maxVal := grid_gap hstep hkv hkM hlt
        rw [if_pos (by rw [abs_of_nonneg (by linarith)]; linarith)]
    · rw [if_neg hd] at h
      exfalso; linarith
  · intro h
    by_cases hd : 0 < diff
    · rw [if_pos hd] at h
      exfalso; linarith
    · rw [if_neg hd] at h
      have hnv : clamp (p.value + -p.step) p.minVal p.maxVal = p.minVal :=
        clamp_eq_lo h
      rw [rotaryEditValue_eq, if_neg hd, hnv]
      rcases eq_or_lt_of_le hlo with heq | hlt
      · split_ifs <;> simp [heq]
      · have hgap : p.minVal + p.step ≤ p.value := grid_gap hstep hkm hkv hlt
        rw [if_pos (by rw [abs_of_nonpos (by linarith)]; linarith)]
  · rw [inboundParam_eq]
    split_ifs with h
    · rcases clamp_cases (fromReg p rv) p.minVal p.maxVal with hc | hc | hc <;> rw [hc]
      · exact ⟨(rv : ℤ), hcand rv⟩
      · exact ⟨km, hkm⟩
      · exact ⟨kM, hkM⟩
    · exact ⟨kv, hkv⟩
  · rw [rotaryEditValue_eq]
    by_cases hd : 0 < diff <;>
      [simp only [if_pos hd]; simp only [if_neg hd]] <;>
      split_ifs with h
    · rcases clamp_cases (p.value + p.step) p.minVal p.maxVal with hc | hc | hc <;> rw [hc]
      · exact ⟨kv + 1, by rw [hkv]; push_cast; ring⟩
      · exact ⟨km, hkm⟩
      · exact ⟨kM, hkM⟩
    · exact ⟨kv, hkv⟩
    · rcases clamp_cases (p.value + -p.step) p.minVal p.maxVal with hc | hc | hc <;> rw [hc]
      · exact ⟨kv - 1, by rw [hkv]; push_cast; ring⟩
      · exact ⟨km, hkm⟩
      · exact ⟨kM, hkM⟩
    · exact ⟨kv, hkv⟩

theorem value_bounds_invariant_and_pinning_witness :
    (0 < phParam.step ∧ phParam.minVal ≤ phParam.value ∧ phParam.value ≤ phParam.maxVal) ∧
    ((phParam.minVal ≤ inboundParam phParam 2000 ∧ inboundParam phParam 2000 ≤ phParam.maxVal) ∧
     (phParam.minVal ≤ rotaryEditValue phParam 1 ∧ rotaryEditValue phParam 1 ≤ phParam.maxVal) ∧
     (phParam.maxVal < fromReg phParam 2000 → inboundParam phParam 2000 = phParam.maxVal) ∧
     (fromReg phParam 2000 < phParam.minVal → inboundParam phParam 2000 = phParam.minVal) ∧
     (phParam.maxVal < phParam.value + (if (0:ℤ) < 1 then phParam.step else -phParam.step) →
       rotaryEditValue phParam 1 = phParam.maxVal) ∧
     (phParam.value + (if (0:ℤ) < 1 then phParam.step else -phParam.step) < phParam.minVal →
       rotaryEditValue phParam 1 = phParam.minVal) ∧
     (∃ k : ℤ, inboundParam phParam 2000 = (k : ℚ) * phParam.step) ∧
     (∃ k : ℤ, rotaryEditValue phParam 1 = (k : ℚ) * phParam.step)) :=
  ⟨⟨by norm_num [phParam, params, dfltParam],
    by norm_num [phParam, params, dfltParam],
    by norm_num [phParam, params, dfltParam]⟩,
   value_bounds_invariant_and_pinning phParam 2000 1
     (by norm_num [phParam, params, dfltParam])
     (by norm_num [phParam, params, dfltParam])
     (by norm_num [phParam, params, dfltParam])
     ⟨700, by push_cast; norm_num [phParam, params, dfltParam]⟩
     ⟨0, by push_cast; norm_num [phParam, params, dfltParam]⟩
     ⟨1400, by push_cast; norm_num [phParam, params, dfltParam]⟩⟩

/-- Claim C5: within one `loop()` tick the inbound pass runs before the
outbound pass — for a register raw value `rv` written by the remote peer
before the tick (decoding inside the parameter's range and past the
hysteresis threshold), the tick first absorbs it into the parameter's value,
and the throttled outbound pass then recomputes the same encoding `rv`, so
the register still holds `rv` after the tick instead of being clobbered by a
push of the stale local value. -/
theorem inbound_absorbs_before_outbound (s : AppState) (i : ℕ) (p : Param) (rv : ℕ)
    (hi : i < s.params.length)
    (hp : s.params.getD i dfltParam = p)
    (hrv : s.hregs p.reg = rv)
    (hnd : (s.params.map Param.reg).Nodup)
    (hstep : 0 < p.step)
    (h16 : rv < 65536)
    (hlo : p.minVal ≤ fromReg p rv)
    (hhi : fromReg p rv ≤ p.maxVal)
    (hacc : |fromReg p rv - p.value| > p.step * (1/2)) :
    ((loopTick s none s.encPrev true).params.getD i dfltParam).value = fromReg p rv ∧
    (loopTick s none s.encPrev true).hregs p.reg = rv := by
  have htick : loopTick s none s.encPrev true =
      { inboundPass s with
        hregs := (outboundPass (inboundPass s).params (inboundPass s).hregs []).1 } := by
    simp only [loopTick, encoderStep_noturn, if_true]
  have hq : (inboundPass s).params.getD i dfltParam =
      { p with value := inboundParam p rv } := by
    rw [inboundPass_getD s i hi]
    simp only [hp, hrv]
  have hval : inboundParam p rv = fromReg p rv := by
    rw [inboundParam_eq, if_pos hacc]
    exact clamp_id hlo hhi
  have hlen : i < (inboundPass s).params.length := by
    simpa [inboundPass] using hi
  constructor
  · rw [htick]
    show ((inboundPass s).params.getD i dfltParam).value = _
    rw [hq, hval]
  · rw [htick]
    show (outboundPass (inboundPass s).params (inboundPass s).hregs []).1 p.reg = rv
    have hmem : { p with value := inboundParam p rv } ∈ (inboundPass s).params := by
      rw [← hq]
      exact getD_mem _ i dfltParam hlen
    have hnd2 : ((inboundPass s).params.map Param.reg).Nodup := by
      rw [inboundPass_map_reg]; exact hnd
    have hs := outboundPass_spec (inboundPass s).params (inboundPass s).hregs []
      hnd2 { p with value := inboundParam p rv } hmem
    have hr : toReg { p with value := inboundParam p rv } = rv := by
      refine toReg_mul _ rv ?_ h16 ?_
      · exact hstep
      · rw [hval]
        show fromReg p rv = _
        simp [fromReg]
    rw [show ({ p with value := inboundParam p rv } : Param).reg = p.reg from rfl] at hs
    rw [hs.1, hr]

theorem inbound_absorbs_before_outbound_witness :
    (1 < stateW.params.length ∧ stateW.hregs tdsParam.reg = 600 ∧
     |fromReg tdsParam 600 - tdsParam.value| > tdsParam.step * (1/2)) ∧
    ((loopTick stateW none stateW.encPrev true).params.getD 1 dfltParam).value =
      fromReg tdsParam 600 ∧
    (loopTick stateW none stateW.encPrev true).hregs tdsParam.reg = 600 :=
  ⟨⟨by decide, rfl,
    by norm_num [fromReg, tdsParam, params, dfltParam]⟩,
   inbound_absorbs_before_outbound stateW 1 tdsParam 600 (by decide) rfl rfl (by decide)
     (by norm_num [tdsParam, params, dfltParam]) (by decide)
     (by norm_num [fromReg, tdsParam, params, dfltParam])
     (by norm_num [fromReg, tdsParam, params, dfltParam])
     (by norm_num [fromReg, tdsParam, params, dfltParam])⟩

/-- Claim C6: the outbound sync pass writes a parameter's encoding to its
register exactly when the encoding differs from the raw value the table
currently holds at that address (first conjunct); afterwards the register
holds the encoding (second), and a register that already agreed is left with
the value it had (third). -/
theorem outbound_writes_iff_differs (ps : List Param) (h : ℕ → ℕ) (p : Param)
    (hnd : (ps.map Param.reg).Nodup) (hp : p ∈ ps) :
    ((p.reg ∈ (outboundPass ps h []).2) ↔ h p.reg ≠ toReg p) ∧
    (outboundPass ps h []).1 p.reg = toReg p ∧
    (h p.reg = toReg p → (outboundPass ps h []).1 p.reg = h p.reg) := by
  have hs := outboundPass_spec ps h [] hnd p hp
  refine ⟨by rw [hs.2]; simp, hs.1, fun he => by rw [hs.1, he]⟩

theorem outbound_writes_iff_differs_witness :
    ((params.map Param.reg).Nodup ∧ phParam ∈ params) ∧
    (((phParam.reg ∈ (outboundPass params zeroRegs []).2) ↔ zeroRegs phParam.reg ≠ toReg phParam) ∧
     (outboundPass params zeroRegs []).1 phParam.reg = toReg phParam ∧
     (zeroRegs phParam.reg = toReg phParam →
       (outboundPass params zeroRegs []).1 phParam.reg = zeroRegs phParam.reg)) :=
  ⟨⟨by decide, List.mem_cons_self _ _⟩,
   outbound_writes_iff_differs params zeroRegs phParam (by decide) (List.mem_cons_self _ _)⟩

/-- Claim C7: a Select press from `Home` moves to `ParamList` with
`listIndex = 0`; from `ParamList` with any `listIndex` it moves to
`ParamEdit` with `editIndex = listIndex`; from `ParamEdit` it writes
`toReg` of the edited parameter to that parameter's register and moves back
to `ParamList`. -/
theorem select_press_transitions (s : AppState) (encNow : ℤ) :
    (onSelect encNow { s with screen := Screen.HOME }).1.screen = Screen.PARAM_LIST ∧
    (onSelect encNow { s with screen := Screen.HOME }).1.listIndex = 0 ∧
    (onSelect encNow { s with screen := Screen.PARAM_LIST }).1.screen = Screen.PARAM_EDIT ∧
    (onSelect encNow { s with screen := Screen.PARAM_LIST }).1.editIndex = s.listIndex ∧
    (onSelect encNow { s with screen := Screen.PARAM_EDIT }).1.screen = Screen.PARAM_LIST ∧
    (onSelect encNow { s with screen := Screen.PARAM_EDIT }).1.hregs =
      setReg s.hregs (paramAt s s.editIndex).reg (toReg (paramAt s s.editIndex)) :=
  ⟨rfl, rfl, rfl, rfl, rfl, rfl⟩

/-- Claim C8: a Back press in `ParamEdit` returns to `ParamList`, and a Back
press never touches the register table or the parameter array — in
particular adjustments a rotation already applied to a value while in
`ParamEdit` persist, and only the register write a Select would have done is
suppressed. -/
theorem back_press_paramEdit_frame (s : AppState) :
    (onBack { s with screen := Screen.PARAM_EDIT }).1.screen = Screen.PARAM_LIST ∧
    (onBack s).1.hregs = s.hregs ∧
    (onBack s).1.params = s.params := by
  refine ⟨rfl, ?_, ?_⟩ <;>
    (rcases s with ⟨scr, li, ei, ep, sf, ps, h, c⟩; cases scr <;> rfl)

/-- Claim C9: in `SerialEdit` a nonzero rotation delta updates only the
selected field, each per its policy: baud moves by one through the fixed
8-value table with the index clamped at the ends (no wraparound); parity
cycles over `N, E, O` as `(index ± 1 + 3) mod 3`; data bits are set directly
to 8 on a positive delta and 7 on a negative one, and stop bits likewise to
2 and 1. -/
theorem serialEdit_rotation_policies (c : SerialCfg) (diff : ℤ)
    (hdiff : diff ≠ 0) (hb : c.baud ∈ BAUDS) (hpar : c.parity ∈ parityOrder) :
    ((serialEditRotate .BAUD diff c).baud =
        BAUDS.getD (if 0 < diff then min (baudIndex c.baud + 1) (BAUD_COUNT - 1)
          else baudIndex c.baud - 1) 0
      ∧ (serialEditRotate .BAUD diff c).parity = c.parity
      ∧ (serialEditRotate .BAUD diff c).dataBits = c.dataBits
      ∧ (serialEditRotate .BAUD diff c).stopBits = c.stopBits) ∧
    ((serialEditRotate .PARITY diff c).parity =
        parityOrder.getD
          (((parityIndex c.parity : ℤ) + (if 0 < diff then 1 else -1) + 3) % 3).toNat ' '
      ∧ (serialEditRotate .PARITY diff c).parity ∈ parityOrder
      ∧ (serialEditRotate .PARITY diff c).baud = c.baud
      ∧ (serialEditRotate .PARITY diff c).dataBits = c.dataBits
      ∧ (serialEditRotate .PARITY diff c).stopBits = c.stopBits) ∧
    ((serialEditRotate .DATABITS diff c).dataBits = (if 0 < diff then 8 else 7)
      ∧ (serialEditRotate .DATABITS diff c).baud = c.baud
      ∧ (serialEditRotate .DATABITS diff c).parity = c.parity
      ∧ (serialEditRotate .DATABITS diff c).stopBits = c.stopBits) ∧
    ((serialEditRotate .STOPBITS diff c).stopBits = (if 0 < diff then 2 else 1)
      ∧ (serialEditRotate .STOPBITS diff c).baud = c.baud
      ∧ (serialEditRotate .STOPBITS diff c).parity = c.parity
      ∧ (serialEditRotate .STOPBITS diff c).dataBits = c.dataBits) := by
  have hbi : baudIndex c.baud < 8 := baudIndex_lt c.baud hb
  refine ⟨⟨?_, rfl, rfl, rfl⟩, ⟨rfl, ?_, rfl, rfl, rfl⟩,
    ⟨rfl, rfl, rfl, rfl⟩, ⟨rfl, rfl, rfl, rfl⟩⟩
  · show BAUDS.getD (clamp ((baudIndex c.baud : ℤ) + (if 0 < diff then 1 else -1)) 0
      ((BAUD_COUNT : ℤ) - 1)).toNat 0 = _
    congr 1
    have h8 : (BAUD_COUNT : ℤ) = 8 := rfl
    have h8n : BAUD_COUNT = 8 := rfl
    rw [h8, h8n]
    unfold clamp
    split_ifs <;> omega
  · show parityOrder.getD
      (((parityIndex c.parity : ℤ) + (if 0 < diff then 1 else -1) + 3) % 3).toNat ' '
      ∈ parityOrder
    have hnn : 0 ≤ ((parityIndex c.parity : ℤ) + (if 0 < diff then 1 else -1) + 3) % 3 :=
      Int.emod_nonneg _ (by norm_num)
    have hlt : ((parityIndex c.parity : ℤ) + (if 0 < diff then 1 else -1) + 3) % 3 < 3 :=
      Int.emod_lt_of_pos _ (by norm_num)
    have hk : (((parityIndex c.parity : ℤ) + (if 0 < diff then 1 else -1) + 3) % 3).toNat = 0 ∨
        (((parityIndex c.parity : ℤ) + (if 0 < diff then 1 else -1) + 3) % 3).toNat = 1 ∨
        (((parityIndex c.parity : ℤ) + (if 0 < diff then 1 else -1) + 3) % 3).toNat = 2 := by
      omega
    rcases hk with hk | hk | hk <;> rw [hk] <;> decide

theorem serialEdit_rotation_policies_witness :
    ((-1 : ℤ) ≠ 0 ∧ cfgW.baud ∈ BAUDS ∧ cfgW.parity ∈ parityOrder) ∧
    (serialEditRotate .BAUD (-1) cfgW).baud = 4800 ∧
    (serialEditRotate .PARITY (-1) cfgW).parity = 'O' ∧
    (serialEditRotate .DATABITS (-1) cfgW).dataBits = 7 ∧
    (serialEditRotate .STOPBITS (-1) cfgW).stopBits = 1 := by
  have h := serialEdit_rotation_policies cfgW (-1) (by decide) (by decide) (by decide)
  exact ⟨⟨by decide, by decide, by decide⟩,
    h.1.1.trans (by decide),
    h.2.1.1.trans (by decide),
    h.2.2.1.1.trans (by decide),
    h.2.2.2.1.trans (by decide)⟩

/-- Claim C10: a long Select press in any navigation state other than `Home`
is a complete no-op — the returned state is the input state (screen, cursors,
encoder baseline, parameters, register table and serial config all included)
and no render request is issued. -/
theorem selectLong_noop_outside_home (s : AppState) (encNow : ℤ)
    (h : s.screen ≠ Screen.HOME) :
    onSelectLong encNow s = (s, []) := by
  unfold onSelectLong
  rw [if_neg h]

theorem selectLong_noop_outside_home_witness :
    stateB.screen ≠ Screen.HOME ∧ onSelectLong 0 stateB = (stateB, []) :=
  ⟨by decide, selectLong_noop_outside_home stateB 0 (by decide)⟩

end ModbusSim
